import Mathlib

/-!
A shallow embedding of `airxtract.py`: an extractor that maps the byte-range
structure of a binary rule-export file by scanning for fixed delimiter
patterns.  Python `bytes` values are modelled as `List Nat`, Python `int` as
`Int` (arbitrary precision), and fallible I/O as `Option`.  The file system
is modelled as a function `String → Option (List Nat)` giving each file name
its contents when the file exists.
-/

/-- Python `data[i:i + len(pattern)] == pattern`: does `pattern` occur in
`data` at position `i`?  (A slice that runs off the end of `data` is shorter
than `pattern` and therefore unequal, exactly as in Python.) -/
def matchesAt (data pattern : List Nat) (i : Nat) : Bool :=
  (data.drop i).take pattern.length == pattern

/-- Python `data.find(pattern, s)`: the least position `i ≥ s` at which
`pattern` occurs in `data`; `none` where Python returns `-1`. -/
def bytesFind (data pattern : List Nat) (s : Nat) : Option Nat :=
  (List.range (data.length + 1)).find? fun i => decide (s ≤ i) && matchesAt data pattern i

/-- The occurrence-collecting loop of `find_offsets` (airxtract.py lines
48-55), with explicit fuel:
`while True: index = data.find(pattern, s); if index == -1: break;
offsets.append(hex(index)); s = index + len(pattern)`.
Python stores `hex(index)` strings and parses them back with `int(_, 16)`;
since that round-trip is the identity, offsets are modelled as `Nat`. -/
def findOffsetsAux (data pattern : List Nat) : Nat → Nat → List Nat
  | 0, _ => []
  | fuel + 1, s =>
    match bytesFind data pattern s with
    | none => []
    | some index => index :: findOffsetsAux data pattern fuel (index + pattern.length)

/-- The offsets list produced by the loop; fuel `data.length + 1` is enough
for any non-empty pattern (proved below). -/
def findOccs (data pattern : List Nat) : List Nat :=
  findOffsetsAux data pattern (data.length + 1) 0

/-- Lines 57-65 of airxtract.py: pair up consecutive offsets, emitting
`[offsets[i], offsets[i+1]]` for `i = 0 .. size-2`; the final offset starts
no block. -/
def pairConsecutive : List Nat → List (Nat × Nat)
  | a :: b :: rest => (a, b) :: pairConsecutive (b :: rest)
  | _ => []

/-- `find_offsets(data, pattern)` (airxtract.py lines 38-66): collect all
left-to-right non-overlapping occurrences of `pattern`, then pair consecutive
occurrences into blocks. -/
def find_offsets (data pattern : List Nat) : List (Nat × Nat) :=
  pairConsecutive (findOccs data pattern)

/-- Value of one hexadecimal digit, as accepted by Python `int(_, 16)`. -/
def hexDigitVal (c : Char) : Option Nat :=
  if ('0' ≤ c ∧ c ≤ '9') then some (c.toNat - '0'.toNat)
  else if ('a' ≤ c ∧ c ≤ 'f') then some (c.toNat - 'a'.toNat + 10)
  else if ('A' ≤ c ∧ c ≤ 'F') then some (c.toNat - 'A'.toNat + 10)
  else none

/-- Fold a run of hexadecimal digits onto an accumulator; `none` as soon as a
non-digit appears. -/
def parseHexDigits : List Char → Nat → Option Nat
  | [], acc => some acc
  | c :: cs, acc =>
    match hexDigitVal c with
    | none => none
    | some v => parseHexDigits cs (acc * 16 + v)

/-- Strip an optional `0x` / `0X` marker. -/
def strip0x : List Char → List Char
  | '0' :: 'x' :: rest => rest
  | '0' :: 'X' :: rest => rest
  | cs => cs

/-- Digits after the optional marker; at least one digit is required
(`int("0x", 16)` and `int("", 16)` raise in Python). -/
def parseHexCore (cs : List Char) : Option Nat :=
  match strip0x cs with
  | [] => none
  | ds => parseHexDigits ds 0

/-- Python `int(s, 16)`: optional sign, optional `0x` marker, then at least
one hexadecimal digit.  (Surrounding whitespace and `_` separators, which
Python also tolerates, never arise in this program and are not modelled.)
Returns `none` where Python raises `ValueError`. -/
def parseHexInt (s : String) : Option Int :=
  match s.toList with
  | '-' :: rest => (parseHexCore rest).map fun n => -(n : Int)
  | '+' :: rest => (parseHexCore rest).map fun n => (n : Int)
  | cs => (parseHexCore cs).map fun n => (n : Int)

/-- Python `hex(n)` for `n ≥ 0`: `"0x"` followed by lowercase hex digits. -/
def pyHex (n : Nat) : String :=
  "0x" ++ String.mk (Nat.toDigits 16 n)

/-- `read_binary_range_in_file(filename, start, end)` (airxtract.py lines
5-36).  Returns `none` exactly where the Python function catches an
exception, prints a diagnostic and returns `None`: a missing file
(`FileNotFoundError`), a malformed hex offset (`ValueError` from
`int(_, 16)`), a negative seek position (`OSError` from `file.seek`), and a
negative read count other than `-1` (`ValueError` from `file.read`; a count
of exactly `-1` makes Python read to end-of-file). -/
def read_binary_range_in_file (fs : String → Option (List Nat))
    (filename : String) (start : String) (stop : String) : Option (List Nat) :=
  match fs filename with
  | none => none
  | some contents =>
    match parseHexInt start with
    | none => none
    | some s =>
      if s < 0 then none
      else if stop = "end_of_file" then some (contents.drop s.toNat)
      else
        match parseHexInt stop with
        | none => none
        | some e =>
          if 0 ≤ e - s then some ((contents.drop s.toNat).take (e - s).toNat)
          else if e - s = -1 then some (contents.drop s.toNat)
          else none

/-- The subsection dictionary built at airxtract.py lines 147-155.  The
`start`, `end`, `offset_1` and `offset_2` values are hex strings in Python;
they are modelled by the integers they denote. -/
structure SubSectionRec where
  name : String
  start : Nat
  end_ : Nat
  offset_1 : Int
  offset_2 : Int
  size : Int
  is_empty : Bool
deriving DecidableEq

/-- The section dictionary built at airxtract.py lines 122-128 and 158. -/
structure SectionRec where
  name : String
  section_start : Nat
  section_end : Nat
  size : Int
  is_empty : Bool
  sub_sections : List SubSectionRec
deriving DecidableEq

/-- The outer delimiter, `b'\xFF\xFF\xFF\xFF'` (line 107). -/
def section_pattern : List Nat := [0xFF, 0xFF, 0xFF, 0xFF]

/-- The inner delimiter, `b'\x00\x00\x00'` (line 119). -/
def sub_section_pattern : List Nat := [0x00, 0x00, 0x00]

/-- One iteration of the subsection loop (airxtract.py lines 131-156):
`j` is the loop index, `r` the local subsection range, `section_end` the
enclosing section's end offset.  `offset_1` and `offset_2` are both set to
`sub_section_end + section_end - len(sub_section_pattern)` and then
`offset_1` is overwritten for `j == 0` with
`sub_section_start + section_end - len(section_pattern)`. -/
def mkSubSection (section_end : Nat) (j : Nat) (r : Nat × Nat) : SubSectionRec :=
  let sub_section_start := r.1
  let sub_section_end := r.2
  let sub_section_size : Int := (sub_section_end : Int) - (sub_section_start : Int)
  let offset_1 : Int :=
    (sub_section_end : Int) + (section_end : Int) - (sub_section_pattern.length : Int)
  let offset_2 : Int :=
    (sub_section_end : Int) + (section_end : Int) - (sub_section_pattern.length : Int)
  let offset_1 : Int :=
    if j = 0 then (sub_section_start : Int) + (section_end : Int) - (section_pattern.length : Int)
    else offset_1
  { name := "sub_section_" ++ toString j
    start := sub_section_start
    end_ := sub_section_end
    offset_1 := offset_1
    offset_2 := offset_2
    size := sub_section_size
    is_empty := decide (sub_section_size ≤ (sub_section_pattern.length : Int)) }

/-- The inner `for j in range(len(sub_section_ranges))` loop, carrying the
running index `j`. -/
def buildSubs (section_end : Nat) : Nat → List (Nat × Nat) → List SubSectionRec
  | _, [] => []
  | j, r :: rs => mkSubSection section_end j r :: buildSubs section_end (j + 1) rs

/-- One iteration of the section loop (airxtract.py lines 111-159): build the
record for section `i` with range `r`.  The re-read of the file restricted to
the section's range passes `hex(start)` / `hex(end)` strings, as the Python
does; if that read returned `None`, the Python would crash on
`None.find` inside `find_offsets`, which the embedding models as `none`. -/
def mkSection (fs : String → Option (List Nat)) (filename : String) (i : Nat)
    (r : Nat × Nat) : Option SectionRec :=
  let section_start := r.1
  let section_end := r.2
  let section_size : Int := (section_end : Int) - (section_start : Int)
  match read_binary_range_in_file fs filename (pyHex section_start) (pyHex section_end) with
  | none => none
  | some sub_section =>
    some { name := "section_" ++ toString i
           section_start := section_start
           section_end := section_end
           size := section_size
           is_empty := decide (section_size ≤ (section_pattern.length : Int))
           sub_sections := buildSubs section_end 0 (find_offsets sub_section sub_section_pattern) }

/-- The outer `for i in range(len(sections))` loop, carrying the running
index `i`.  Any crash in an iteration (`none`) aborts the whole run: in
Python the JSON documents are only printed after this loop completes. -/
def buildSections (fs : String → Option (List Nat)) (filename : String) :
    Nat → List (Nat × Nat) → Option (List SectionRec)
  | _, [] => some []
  | i, r :: rs =>
    match mkSection fs filename i r with
    | none => none
    | some sec =>
      match buildSections fs filename (i + 1) rs with
      | none => none
      | some secs => some (sec :: secs)

/-- `extract_sections(filename)` (airxtract.py lines 68-162), up to JSON
printing: read the whole file, scan for the outer delimiter, and build one
record per section.  If the initial read returns `None`, the Python crashes
at `None.find` inside `find_offsets` before emitting anything; the embedding
models the aborted run as `none`. -/
def extract_sections (fs : String → Option (List Nat)) (filename : String) :
    Option (List SectionRec) :=
  match read_binary_range_in_file fs filename "0" "end_of_file" with
  | none => none
  | some data => buildSections fs filename 0 (find_offsets data section_pattern)

/-! ## Concrete fixtures used by witnesses and counterexamples -/

/-- A 20-byte file whose single section `[0, 16)` contains two subsection
ranges, `(4, 8)` and `(8, 12)`, so that a subsection with local index 1
exists. -/
def cexBytes : List Nat :=
  [0xFF, 0xFF, 0xFF, 0xFF, 0x00, 0x00, 0x00, 0xAA, 0x00, 0x00, 0x00, 0xBB,
   0x00, 0x00, 0x00, 0xCC, 0xFF, 0xFF, 0xFF, 0xFF]

/-- A file system in which every name resolves to `cexBytes`. -/
def cexFS : String → Option (List Nat) := fun _ => some cexBytes

/-- The first subsection record produced for `cexBytes`. -/
def cexSub0 : SubSectionRec :=
  { name := "sub_section_0", start := 4, end_ := 8, offset_1 := 16, offset_2 := 21,
    size := 4, is_empty := false }

/-- The second subsection record produced for `cexBytes`. -/
def cexSub1 : SubSectionRec :=
  { name := "sub_section_1", start := 8, end_ := 12, offset_1 := 25, offset_2 := 25,
    size := 4, is_empty := false }

/-- The single section record produced for `cexBytes`. -/
def cexSec : SectionRec :=
  { name := "section_0", section_start := 0, section_end := 16, size := 16,
    is_empty := false, sub_sections := [cexSub0, cexSub1] }

/-- The extractor's output on `cexBytes`, computed by evaluation. -/
lemma cex_extract : extract_sections cexFS "rules.airx" = some [cexSec] := by decide

/-- The byte source of the spec's end-to-end scenario:
`FF FF FF FF 00 00 00 AA FF FF FF FF 00 00 00 BB FF FF FF FF 00 00 00 CC`
(24 bytes). -/
def e2eBytes : List Nat :=
  [0xFF, 0xFF, 0xFF, 0xFF, 0x00, 0x00, 0x00, 0xAA,
   0xFF, 0xFF, 0xFF, 0xFF, 0x00, 0x00, 0x00, 0xBB,
   0xFF, 0xFF, 0xFF, 0xFF, 0x00, 0x00, 0x00, 0xCC]

/-- A file system in which every name resolves to `e2eBytes`. -/
def e2eFS : String → Option (List Nat) := fun _ => some e2eBytes

/-- First section record produced for `e2eBytes`: range `[0, 8)`, no
subsection ranges (the inner delimiter occurs once, so no pair is formed). -/
def e2eSec0 : SectionRec :=
  { name := "section_0", section_start := 0, section_end := 8, size := 8,
    is_empty := false, sub_sections := [] }

/-- Second section record produced for `e2eBytes`: range `[8, 16)`, no
subsection ranges. -/
def e2eSec1 : SectionRec :=
  { name := "section_1", section_start := 8, section_end := 16, size := 8,
    is_empty := false, sub_sections := [] }

/-- A file system with no files at all, for the reader failure claims. -/
def failFS : String → Option (List Nat) := fun _ => none

/-! ## Scanner lemmas -/

lemma bytesFind_some {data pattern : List Nat} {s i : Nat}
    (h : bytesFind data pattern s = some i) :
    s ≤ i ∧ matchesAt data pattern i = true := by
  have hp := List.find?_some h
  simp only [Bool.and_eq_true, decide_eq_true_eq] at hp
  exact hp

lemma bytesFind_none_of_big {data pattern : List Nat} {s : Nat}
    (hs : data.length + 1 ≤ s) : bytesFind data pattern s = none := by
  unfold bytesFind
  rw [List.find?_eq_none]
  intro i hi
  rw [List.mem_range] at hi
  simp only [Bool.and_eq_true, decide_eq_true_eq, not_and]
  intro hsi
  omega

lemma matchesAt_le {data pattern : List Nat} {i : Nat} (hp : pattern ≠ [])
    (h : matchesAt data pattern i = true) : i + pattern.length ≤ data.length := by
  unfold matchesAt at h
  have heq : (data.drop i).take pattern.length = pattern := eq_of_beq h
  have hlen := congrArg List.length heq
  simp only [List.length_take, List.length_drop] at hlen
  have hq : pattern.length ≤ data.length - i := hlen ▸ Nat.min_le_right _ _
  have hpos : 0 < pattern.length := List.length_pos.mpr hp
  omega

lemma findOffsetsAux_mem {data pattern : List Nat} :
    ∀ fuel s x, x ∈ findOffsetsAux data pattern fuel s →
      s ≤ x ∧ matchesAt data pattern x = true := by
  intro fuel
  induction fuel with
  | zero => intro s x hx; simp [findOffsetsAux] at hx
  | succ n ih =>
    intro s x hx
    unfold findOffsetsAux at hx
    cases hfind : bytesFind data pattern s with
    | none => rw [hfind] at hx; simp at hx
    | some idx =>
      rw [hfind] at hx
      rcases List.mem_cons.mp hx with rfl | hx'
      · exact bytesFind_some hfind
      · have h2 := ih _ _ hx'
        have h1 := bytesFind_some hfind
        exact ⟨le_trans h1.1 (le_trans (Nat.le_add_right _ _) h2.1), h2.2⟩

lemma findOffsetsAux_chain {data pattern : List Nat} :
    ∀ fuel s,
      List.Chain' (fun a b => a + pattern.length ≤ b) (findOffsetsAux data pattern fuel s) := by
  intro fuel
  induction fuel with
  | zero => intro s; simp [findOffsetsAux]
  | succ n ih =>
    intro s
    unfold findOffsetsAux
    cases hfind : bytesFind data pattern s with
    | none => simp
    | some idx =>
      rw [List.chain'_cons']
      refine ⟨?_, ih _⟩
      intro y hy
      exact (findOffsetsAux_mem _ _ _ (List.mem_of_mem_head? hy)).1

lemma findOffsetsAux_congr {data pattern : List Nat} (hp : pattern ≠ []) :
    ∀ fuel₁ fuel₂ s, data.length + 1 - s ≤ fuel₁ → data.length + 1 - s ≤ fuel₂ →
      findOffsetsAux data pattern fuel₁ s = findOffsetsAux data pattern fuel₂ s := by
  intro fuel₁
  induction fuel₁ with
  | zero =>
    intro fuel₂ s h1 _
    have hs : data.length + 1 ≤ s := by omega
    cases fuel₂ with
    | zero => rfl
    | succ m =>
      show findOffsetsAux data pattern 0 s = findOffsetsAux data pattern (m + 1) s
      unfold findOffsetsAux
      rw [bytesFind_none_of_big hs]
  | succ n ih =>
    intro fuel₂ s h1 h2
    cases fuel₂ with
    | zero =>
      have hs : data.length + 1 ≤ s := by omega
      show findOffsetsAux data pattern (n + 1) s = findOffsetsAux data pattern 0 s
      unfold findOffsetsAux
      rw [bytesFind_none_of_big hs]
    | succ m =>
      show findOffsetsAux data pattern (n + 1) s = findOffsetsAux data pattern (m + 1) s
      unfold findOffsetsAux
      cases hfind : bytesFind data pattern s with
      | none => rfl
      | some idx =>
        have hb := bytesFind_some hfind
        have hle := matchesAt_le hp hb.2
        have hpos : 0 < pattern.length := List.length_pos.mpr hp
        have hrec := ih m (idx + pattern.length) (by omega) (by omega)
        exact congrArg (idx :: ·) hrec

lemma pairConsecutive_getElem? :
    ∀ (l : List Nat) (k : Nat),
      (pairConsecutive l)[k]? = (l[k]?).bind fun a => (l[k + 1]?).map fun b => (a, b) := by
  intro l
  induction l with
  | nil => intro k; simp [pairConsecutive]
  | cons a t ih =>
    intro k
    cases t with
    | nil =>
      cases k with
      | zero => simp [pairConsecutive]
      | succ k => simp [pairConsecutive]
    | cons b r =>
      cases k with
      | zero => simp [pairConsecutive]
      | succ k =>
        simp only [pairConsecutive, List.getElem?_cons_succ]
        simpa using ih k

lemma pairConsecutive_length (l : List Nat) :
    (pairConsecutive l).length = l.length - 1 := by
  induction l with
  | nil => rfl
  | cons a t ih =>
    cases t with
    | nil => rfl
    | cons b r =>
      have : (pairConsecutive (a :: b :: r)).length = (pairConsecutive (b :: r)).length + 1 := rfl
      rw [this, ih]
      simp

lemma pairConsecutive_rel {R : Nat → Nat → Prop} :
    ∀ l : List Nat, List.Chain' R l → ∀ p ∈ pairConsecutive l, R p.1 p.2 := by
  intro l
  induction l with
  | nil => intro _ p hp; simp [pairConsecutive] at hp
  | cons a t ih =>
    intro hch p hp
    cases t with
    | nil => simp [pairConsecutive] at hp
    | cons b r =>
      rw [List.chain'_cons] at hch
      rcases List.mem_cons.mp hp with rfl | hp'
      · exact hch.1
      · exact ih hch.2 p hp'

lemma pairConsecutive_chain :
    ∀ l : List Nat, List.Chain' (fun p q : Nat × Nat => p.2 = q.1) (pairConsecutive l) := by
  intro l
  induction l with
  | nil => simp [pairConsecutive]
  | cons a t ih =>
    cases t with
    | nil => simp [pairConsecutive]
    | cons b r =>
      show List.Chain' _ ((a, b) :: pairConsecutive (b :: r))
      rw [List.chain'_cons']
      refine ⟨?_, ih⟩
      intro q hq
      cases r with
      | nil => simp [pairConsecutive] at hq
      | cons c r' =>
        simp only [pairConsecutive, List.head?_cons, Option.mem_def, Option.some.injEq] at hq
        rw [← hq]

lemma pairConsecutive_fst_mem :
    ∀ (l : List Nat) (p : Nat × Nat), p ∈ pairConsecutive l → p.1 ∈ l := by
  intro l
  induction l with
  | nil => intro p hp; simp [pairConsecutive] at hp
  | cons a t ih =>
    intro p hp
    cases t with
    | nil => simp [pairConsecutive] at hp
    | cons b r =>
      rcases List.mem_cons.mp hp with rfl | hp'
      · exact List.mem_cons_self _ _
      · exact List.mem_cons_of_mem _ (ih p hp')

/-! ## Claim C1 -/

/-- Claim C1: for every buffer and every non-empty pattern, `find_offsets`
returns exactly `max(0, n - 1)` ranges, where `n` is the number of
non-overlapping occurrences found left-to-right (the list `findOccs`); the
`k`-th range is `[occurrence k, occurrence k+1)`; ranges are strictly
increasing and non-overlapping (each range ends exactly where the next
starts, and within a range start < end); each range's start is a true match
position; and zero or one occurrences yield the empty list. -/
theorem find_offsets_block_structure (data pattern : List Nat) (hp : pattern ≠ []) :
    (find_offsets data pattern).length = (findOccs data pattern).length - 1
    ∧ (∀ k : Nat, (find_offsets data pattern)[k]? =
        ((findOccs data pattern)[k]?).bind fun a =>
          ((findOccs data pattern)[k + 1]?).map fun b => (a, b))
    ∧ (∀ r ∈ find_offsets data pattern,
        matchesAt data pattern r.1 = true ∧ r.1 + pattern.length ≤ r.2 ∧ r.1 < r.2)
    ∧ List.Chain' (fun r s : Nat × Nat => r.2 = s.1) (find_offsets data pattern)
    ∧ ((findOccs data pattern).length ≤ 1 → find_offsets data pattern = []) := by
  have hchain := @findOffsetsAux_chain data pattern (data.length + 1) 0
  have hpos : 0 < pattern.length := List.length_pos.mpr hp
  refine ⟨pairConsecutive_length _, fun k => pairConsecutive_getElem? _ k, ?_, ?_, ?_⟩
  · intro r hr
    have hsep := pairConsecutive_rel (findOccs data pattern) hchain r hr
    have hmem := pairConsecutive_fst_mem (findOccs data pattern) r hr
    have hmatch := (@findOffsetsAux_mem data pattern _ _ _ hmem).2
    exact ⟨hmatch, hsep, by omega⟩
  · exact pairConsecutive_chain _
  · intro hlen
    cases hocc : findOccs data pattern with
    | nil => simp [find_offsets, hocc, pairConsecutive]
    | cons a t =>
      cases t with
      | nil => simp [find_offsets, hocc, pairConsecutive]
      | cons b r => rw [hocc] at hlen; simp at hlen

/-- Witness for C1 at the buffer `[0, 1, 0, 1, 0]` and pattern `[0]`, whose
occurrence list is `[0, 2, 4]` and whose block list is `[(0, 2), (2, 4)]`. -/
theorem find_offsets_block_structure_witness :
    (([0] : List Nat) ≠ [])
    ∧ (find_offsets [0, 1, 0, 1, 0] [0]).length = (findOccs [0, 1, 0, 1, 0] [0]).length - 1
    ∧ (find_offsets [0, 1, 0, 1, 0] [0])[0]? =
        ((findOccs [0, 1, 0, 1, 0] [0])[0]?).bind (fun a =>
          ((findOccs [0, 1, 0, 1, 0] [0])[0 + 1]?).map fun b => (a, b))
    ∧ (matchesAt [0, 1, 0, 1, 0] [0] (0, 2).1 = true
        ∧ (0, 2).1 + ([0] : List Nat).length ≤ (0, 2).2 ∧ (0, 2).1 < (0, 2).2)
    ∧ List.Chain' (fun r s : Nat × Nat => r.2 = s.1) (find_offsets [0, 1, 0, 1, 0] [0]) := by
  have h := find_offsets_block_structure [0, 1, 0, 1, 0] [0] (by decide)
  exact ⟨by decide, h.1, h.2.1 0, h.2.2.1 (0, 2) (by decide), h.2.2.2.1⟩

/-! ## Claim C9 -/

/-- Claim C9: every range produced by the offset scanner has size
`end - start` at least the pattern length (the search resumes at the match
position plus the pattern length), hence strictly positive size, and the
scanner-level `is_empty` condition `size ≤ len(pattern)` holds exactly when
the size equals the pattern length. -/
theorem scanner_range_size (data pattern : List Nat) (hp : pattern ≠ []) :
    ∀ r ∈ find_offsets data pattern,
      pattern.length ≤ r.2 - r.1
      ∧ 0 < r.2 - r.1
      ∧ (r.2 - r.1 ≤ pattern.length ↔ r.2 - r.1 = pattern.length) := by
  intro r hr
  have hchain := @findOffsetsAux_chain data pattern (data.length + 1) 0
  have hsep := pairConsecutive_rel (findOccs data pattern) hchain r hr
  have hpos : 0 < pattern.length := List.length_pos.mpr hp
  exact ⟨by omega, by omega, by omega⟩

/-- Witness for C9 at the buffer `[0, 1, 0]` and pattern `[0]`, whose block
list is `[(0, 2)]`. -/
theorem scanner_range_size_witness :
    (([0] : List Nat) ≠ [])
    ∧ (([0] : List Nat).length ≤ (0, 2).2 - (0, 2).1
        ∧ 0 < (0, 2).2 - (0, 2).1
        ∧ ((0, 2).2 - (0, 2).1 ≤ ([0] : List Nat).length
            ↔ (0, 2).2 - (0, 2).1 = ([0] : List Nat).length)) :=
  ⟨by decide, scanner_range_size [0, 1, 0] [0] (by decide) (0, 2) (by decide)⟩

/-! ## Claim C10 -/

/-- Claim C10: for every buffer and non-empty pattern the occurrence loop
terminates: its result is stable for any fuel of at least
`data.length + 1`, because each iteration advances the search start by at
least the pattern length while staying bounded by the buffer length. -/
theorem scanner_terminates (data pattern : List Nat) (hp : pattern ≠ [])
    (fuel : Nat) (hf : data.length + 1 ≤ fuel) :
    findOffsetsAux data pattern fuel 0 = findOccs data pattern := by
  unfold findOccs
  exact findOffsetsAux_congr hp fuel (data.length + 1) 0 (by omega) (by omega)

/-- Witness for C10: fuel 42 already gives the fixed point on a 5-byte
buffer. -/
theorem scanner_terminates_witness :
    (([0] : List Nat) ≠ []) ∧ ([0, 1, 0, 1, 0] : List Nat).length + 1 ≤ 42
    ∧ findOffsetsAux [0, 1, 0, 1, 0] [0] 42 0 = findOccs [0, 1, 0, 1, 0] [0] :=
  ⟨by decide, by decide, scanner_terminates [0, 1, 0, 1, 0] [0] (by decide) 42 (by decide)⟩

/-! ## Composition lemmas -/

lemma mkSection_some {fs : String → Option (List Nat)} {fn : String} {i : Nat}
    {r : Nat × Nat} {sec : SectionRec} (h : mkSection fs fn i r = some sec) :
    ∃ buf, read_binary_range_in_file fs fn (pyHex r.1) (pyHex r.2) = some buf ∧
      sec = { name := "section_" ++ toString i
              section_start := r.1
              section_end := r.2
              size := (r.2 : Int) - (r.1 : Int)
              is_empty := decide (((r.2 : Int) - (r.1 : Int)) ≤ (section_pattern.length : Int))
              sub_sections := buildSubs r.2 0 (find_offsets buf sub_section_pattern) } := by
  simp only [mkSection] at h
  cases hread : read_binary_range_in_file fs fn (pyHex r.1) (pyHex r.2) with
  | none => rw [hread] at h; exact absurd h (by simp)
  | some buf =>
    rw [hread] at h
    exact ⟨buf, rfl, (Option.some.inj h).symm⟩

lemma mkSection_fields {fs : String → Option (List Nat)} {fn : String} {i : Nat}
    {r : Nat × Nat} {sec : SectionRec} (h : mkSection fs fn i r = some sec) :
    sec.section_end = r.2
    ∧ sec.size = (r.2 : Int) - (r.1 : Int)
    ∧ sec.is_empty = decide (((r.2 : Int) - (r.1 : Int)) ≤ (section_pattern.length : Int))
    ∧ ∃ buf, read_binary_range_in_file fs fn (pyHex r.1) (pyHex r.2) = some buf ∧
        sec.sub_sections = buildSubs r.2 0 (find_offsets buf sub_section_pattern) := by
  obtain ⟨buf, hread, rfl⟩ := mkSection_some h
  exact ⟨rfl, rfl, rfl, buf, hread, rfl⟩

lemma buildSections_mem {fs : String → Option (List Nat)} {fn : String} :
    ∀ (rs : List (Nat × Nat)) (i : Nat) (secs : List SectionRec),
      buildSections fs fn i rs = some secs →
      ∀ sec ∈ secs, ∃ i' r, mkSection fs fn i' r = some sec := by
  intro rs
  induction rs with
  | nil =>
    intro i secs h sec hsec
    simp only [buildSections] at h
    obtain rfl := Option.some.inj h
    simp at hsec
  | cons r rs ih =>
    intro i secs h sec hsec
    simp only [buildSections] at h
    cases hmk : mkSection fs fn i r with
    | none => rw [hmk] at h; exact absurd h (by simp)
    | some sec0 =>
      rw [hmk] at h
      cases hbs : buildSections fs fn (i + 1) rs with
      | none => rw [hbs] at h; exact absurd h (by simp)
      | some secs0 =>
        rw [hbs] at h
        obtain rfl := Option.some.inj h
        rcases List.mem_cons.mp hsec with rfl | hmem
        · exact ⟨i, r, hmk⟩
        · exact ih (i + 1) secs0 hbs sec hmem

lemma extract_sections_mem {fs : String → Option (List Nat)} {fn : String}
    {secs : List SectionRec} (h : extract_sections fs fn = some secs) :
    ∀ sec ∈ secs, ∃ i r, mkSection fs fn i r = some sec := by
  intro sec hsec
  simp only [extract_sections] at h
  cases hread : read_binary_range_in_file fs fn "0" "end_of_file" with
  | none => rw [hread] at h; exact absurd h (by simp)
  | some data =>
    rw [hread] at h
    exact buildSections_mem _ _ _ h sec hsec

lemma buildSubs_getElem? {se : Nat} :
    ∀ (rs : List (Nat × Nat)) (j k : Nat),
      (buildSubs se j rs)[k]? = (rs[k]?).map fun r => mkSubSection se (j + k) r := by
  intro rs
  induction rs with
  | nil => intro j k; simp [buildSubs]
  | cons r rs ih =>
    intro j k
    cases k with
    | zero => simp [buildSubs]
    | succ k =>
      show (buildSubs se j (r :: rs))[k + 1]? = _
      simp only [buildSubs, List.getElem?_cons_succ]
      rw [ih (j + 1) k]
      have hj : j + 1 + k = j + (k + 1) := by omega
      rw [hj]

lemma buildSubs_mem {se : Nat} :
    ∀ (rs : List (Nat × Nat)) (j : Nat) (sub : SubSectionRec),
      sub ∈ buildSubs se j rs → ∃ j' r, sub = mkSubSection se j' r := by
  intro rs
  induction rs with
  | nil => intro j sub hsub; simp [buildSubs] at hsub
  | cons r rs ih =>
    intro j sub hsub
    rcases List.mem_cons.mp hsub with rfl | hmem
    · exact ⟨j, r, rfl⟩
    · exact ih (j + 1) sub hmem

lemma mkSubSection_start (se j : Nat) (r : Nat × Nat) :
    (mkSubSection se j r).start = r.1 := rfl

lemma mkSubSection_end (se j : Nat) (r : Nat × Nat) :
    (mkSubSection se j r).end_ = r.2 := rfl

lemma mkSubSection_size (se j : Nat) (r : Nat × Nat) :
    (mkSubSection se j r).size = (r.2 : Int) - (r.1 : Int) := rfl

lemma mkSubSection_is_empty (se j : Nat) (r : Nat × Nat) :
    (mkSubSection se j r).is_empty =
      decide (((r.2 : Int) - (r.1 : Int)) ≤ (sub_section_pattern.length : Int)) := rfl

lemma mkSubSection_offset_1 (se j : Nat) (r : Nat × Nat) :
    (mkSubSection se j r).offset_1 =
      if j = 0 then (r.1 : Int) + (se : Int) - (section_pattern.length : Int)
      else (r.2 : Int) + (se : Int) - (sub_section_pattern.length : Int) := rfl

lemma mkSubSection_offset_2 (se j : Nat) (r : Nat × Nat) :
    (mkSubSection se j r).offset_2 =
      (r.2 : Int) + (se : Int) - (sub_section_pattern.length : Int) := rfl

/-! ## Claim C5 -/

/-- Claim C5: for every subsection with local index `j > 0`, the emitted
`offset_1` equals the emitted `offset_2`: both are computed by the identical
expression for all non-first subsections. -/
theorem nonfirst_offsets_equal (fs : String → Option (List Nat)) (fn : String)
    (secs : List SectionRec) (h : extract_sections fs fn = some secs) :
    ∀ sec ∈ secs, ∀ j : Nat, 0 < j → ∀ sub : SubSectionRec,
      sec.sub_sections[j]? = some sub → sub.offset_1 = sub.offset_2 := by
  intro sec hsec j hj sub hsub
  obtain ⟨i, r, hmk⟩ := extract_sections_mem h sec hsec
  obtain ⟨hend, hsize, hempty, buf, hread, hsubs⟩ := mkSection_fields hmk
  rw [hsubs, buildSubs_getElem?, Option.map_eq_some'] at hsub
  obtain ⟨rr, hrr, rfl⟩ := hsub
  rw [mkSubSection_offset_1, mkSubSection_offset_2, if_neg (by omega)]

/-- Witness for C5: in the `cexBytes` extraction the subsection with local
index 1 has `offset_1 = offset_2` (both `0x19`). -/
theorem nonfirst_offsets_equal_witness :
    extract_sections cexFS "rules.airx" = some [cexSec]
    ∧ cexSub1.offset_1 = cexSub1.offset_2 :=
  ⟨cex_extract,
   nonfirst_offsets_equal cexFS "rules.airx" [cexSec] cex_extract cexSec
     (List.mem_singleton.mpr rfl) 1 (by omega) cexSub1 rfl⟩

/-! ## Claim C2 -/

/-- Counterexample to C2 as stated.  On `cexBytes`, the subsection with local
index 1 has local end 12 inside the section ending at 16; the code emits
`offset_1 = offset_2 = 12 + 16 - 3 = 25` (it subtracts the *inner* pattern
length, airxtract.py lines 137-138), but the claim demands
`12 + (16 - 4) = 24`. -/
theorem nonfirst_offset_counterexample :
    extract_sections cexFS "rules.airx" = some [cexSec]
    ∧ cexSec.sub_sections[1]? = some cexSub1
    ∧ cexSub1.offset_1 ≠ (cexSub1.end_ : Int) + (cexSec.section_end : Int) - 4
    ∧ cexSub1.offset_2 ≠ (cexSub1.end_ : Int) + (cexSec.section_end : Int) - 4 :=
  ⟨cex_extract, rfl, by decide, by decide⟩

/-- Claim C2 as amended: for every subsection with local index `j > 0`, both
`offset_1` and `offset_2` equal the subsection's local end plus
`section_end - 3`, where 3 is the length of the *inner* delimiter pattern
(not 4, the outer pattern's length, as the claim stated). -/
theorem nonfirst_offset_rebase (fs : String → Option (List Nat)) (fn : String)
    (secs : List SectionRec) (h : extract_sections fs fn = some secs) :
    ∀ sec ∈ secs, ∀ j : Nat, 0 < j → ∀ sub : SubSectionRec,
      sec.sub_sections[j]? = some sub →
      sub.offset_1 = (sub.end_ : Int) + (sec.section_end : Int) - 3
      ∧ sub.offset_2 = (sub.end_ : Int) + (sec.section_end : Int) - 3 := by
  intro sec hsec j hj sub hsub
  obtain ⟨i, r, hmk⟩ := extract_sections_mem h sec hsec
  obtain ⟨hend, hsize, hempty, buf, hread, hsubs⟩ := mkSection_fields hmk
  rw [hsubs, buildSubs_getElem?, Option.map_eq_some'] at hsub
  obtain ⟨rr, hrr, rfl⟩ := hsub
  rw [hend, mkSubSection_offset_1, mkSubSection_offset_2, mkSubSection_end,
    if_neg (by omega)]
  exact ⟨rfl, rfl⟩

/-- Witness for the amended C2: the index-1 subsection of the `cexBytes`
extraction has `offset_1 = offset_2 = 12 + 16 - 3`. -/
theorem nonfirst_offset_rebase_witness :
    extract_sections cexFS "rules.airx" = some [cexSec]
    ∧ (cexSub1.offset_1 = (cexSub1.end_ : Int) + (cexSec.section_end : Int) - 3
        ∧ cexSub1.offset_2 = (cexSub1.end_ : Int) + (cexSec.section_end : Int) - 3) :=
  ⟨cex_extract,
   nonfirst_offset_rebase cexFS "rules.airx" [cexSec] cex_extract cexSec
     (List.mem_singleton.mpr rfl) 1 (by omega) cexSub1 rfl⟩

/-! ## Claim C6 -/

/-- Claim C6: for the first subsection of every section (local index 0), the
emitted `offset_1` equals the subsection's local start plus
`section_end - 4`, where 4 is the length of the outer delimiter pattern
(airxtract.py lines 140-141). -/
theorem first_offset_rebase (fs : String → Option (List Nat)) (fn : String)
    (secs : List SectionRec) (h : extract_sections fs fn = some secs) :
    ∀ sec ∈ secs, ∀ sub : SubSectionRec,
      sec.sub_sections[0]? = some sub →
      sub.offset_1 = (sub.start : Int) + (sec.section_end : Int) - 4 := by
  intro sec hsec sub hsub
  obtain ⟨i, r, hmk⟩ := extract_sections_mem h sec hsec
  obtain ⟨hend, hsize, hempty, buf, hread, hsubs⟩ := mkSection_fields hmk
  rw [hsubs, buildSubs_getElem?, Option.map_eq_some'] at hsub
  obtain ⟨rr, hrr, rfl⟩ := hsub
  rw [hend, mkSubSection_offset_1, mkSubSection_start, if_pos rfl]
  rfl

/-- Witness for C6: the index-0 subsection of the `cexBytes` extraction has
`offset_1 = 4 + 16 - 4 = 16`. -/
theorem first_offset_rebase_witness :
    extract_sections cexFS "rules.airx" = some [cexSec]
    ∧ cexSub0.offset_1 = (cexSub0.start : Int) + (cexSec.section_end : Int) - 4 :=
  ⟨cex_extract,
   first_offset_rebase cexFS "rules.airx" [cexSec] cex_extract cexSec
     (List.mem_singleton.mpr rfl) cexSub0 rfl⟩

/-! ## Claim C4 -/

/-- Claim C4: in every emitted record, `is_empty` is true exactly when the
record's size is at most the length of the delimiter pattern that produced
its range: 4 (outer pattern) for sections, 3 (inner pattern) for
subsections. -/
theorem is_empty_iff_size_le (fs : String → Option (List Nat)) (fn : String)
    (secs : List SectionRec) (h : extract_sections fs fn = some secs) :
    ∀ sec ∈ secs,
      (sec.is_empty = true ↔ sec.size ≤ (4 : Int))
      ∧ ∀ sub ∈ sec.sub_sections,
          (sub.is_empty = true ↔ sub.size ≤ (3 : Int)) := by
  intro sec hsec
  obtain ⟨i, r, hmk⟩ := extract_sections_mem h sec hsec
  obtain ⟨hend, hsize, hempty, buf, hread, hsubs⟩ := mkSection_fields hmk
  constructor
  · rw [hempty, hsize]
    simp [section_pattern]
  · intro sub hsub
    rw [hsubs] at hsub
    obtain ⟨j', rr, rfl⟩ := buildSubs_mem _ _ _ hsub
    rw [mkSubSection_is_empty, mkSubSection_size]
    simp [sub_section_pattern]

/-- Witness for C4 on the `cexBytes` extraction: the section record and its
first subsection record satisfy the `is_empty` characterisation. -/
theorem is_empty_iff_size_le_witness :
    extract_sections cexFS "rules.airx" = some [cexSec]
    ∧ (cexSec.is_empty = true ↔ cexSec.size ≤ (4 : Int))
    ∧ (cexSub0.is_empty = true ↔ cexSub0.size ≤ (3 : Int)) := by
  have h := is_empty_iff_size_le cexFS "rules.airx" [cexSec] cex_extract cexSec
    (List.mem_singleton.mpr rfl)
  exact ⟨cex_extract, h.1, h.2 cexSub0 (by decide)⟩

/-! ## Claim C3 -/

/-- The extractor's output on the end-to-end scenario bytes, computed by
evaluation. -/
lemma e2e_extract : extract_sections e2eFS "rules.airx" = some [e2eSec0, e2eSec1] := by
  decide

/-- Counterexample to C3 as stated.  On the scenario bytes the outer
delimiter occurs at offsets 0, 8 and 16, so the two sections span `[0, 8)`
and `[8, 16)` — not `[0, 11)` and `[11, 23)` — and each section's local
inner scan finds exactly one inner-delimiter occurrence, which pairs into 0
subsection ranges, not 1. -/
theorem e2e_scenario_counterexample :
    extract_sections e2eFS "rules.airx" = some [e2eSec0, e2eSec1]
    ∧ e2eSec0.section_end ≠ 11
    ∧ e2eSec1.section_start ≠ 11
    ∧ e2eSec1.section_end ≠ 23
    ∧ e2eSec0.sub_sections.length ≠ 1
    ∧ e2eSec1.sub_sections.length ≠ 1 :=
  ⟨e2e_extract, by decide, by decide, by decide, by decide, by decide⟩

/-- Claim C3 as amended: the end-to-end extraction on the scenario bytes
yields exactly 2 sections, whose ranges are `[0, 8)` and `[8, 16)`, each
containing exactly 0 subsection ranges from its local inner-delimiter scan. -/
theorem e2e_scenario_actual :
    extract_sections e2eFS "rules.airx" = some [e2eSec0, e2eSec1]
    ∧ e2eSec0.section_start = 0 ∧ e2eSec0.section_end = 8
    ∧ e2eSec1.section_start = 8 ∧ e2eSec1.section_end = 16
    ∧ e2eSec0.sub_sections.length = 0 ∧ e2eSec1.sub_sections.length = 0 :=
  ⟨e2e_extract, rfl, rfl, rfl, rfl, rfl, rfl⟩

/-! ## Claim C7 -/

/-- The read-time faults of `read_binary_range_in_file`, i.e. the exceptions
the Python code catches: the named source does not exist
(`FileNotFoundError`), the start offset is a malformed hex string, the start
offset is negative (the seek raises), the end offset is a malformed hex
string, or the computed read count `end - start` is below `-1` (the read
raises). -/
def readerFault (fs : String → Option (List Nat))
    (filename start stop : String) : Prop :=
  fs filename = none
  ∨ parseHexInt start = none
  ∨ (∃ s : Int, parseHexInt start = some s ∧ s < 0)
  ∨ (stop ≠ "end_of_file" ∧ parseHexInt stop = none)
  ∨ (stop ≠ "end_of_file" ∧ ∃ s e : Int, parseHexInt start = some s ∧ 0 ≤ s
      ∧ parseHexInt stop = some e ∧ e - s < -1)

/-- Claim C7: whenever a read-time fault occurs — the source is missing, or
an offset is malformed, or the offset arithmetic makes the seek or read
raise — the range reader returns the absence value `none` to the caller
instead of propagating the exception.  (In the Python, each such exception
is caught at the read call and only logged.) -/
theorem reader_fault_absence (fs : String → Option (List Nat))
    (filename start stop : String) (h : readerFault fs filename start stop) :
    read_binary_range_in_file fs filename start stop = none := by
  unfold readerFault at h
  rcases h with h | h | ⟨s, hs, hneg⟩ | ⟨hne, hstop⟩ | ⟨hne, s, e, hs, hpos, he, hlt⟩
  · simp [read_binary_range_in_file, h]
  · cases hfs : fs filename <;> simp [read_binary_range_in_file, hfs, h]
  · cases hfs : fs filename <;> simp [read_binary_range_in_file, hfs, hs, hneg]
  · cases hfs : fs filename with
    | none => simp [read_binary_range_in_file, hfs]
    | some contents =>
      cases hps : parseHexInt start with
      | none => simp [read_binary_range_in_file, hfs, hps]
      | some s =>
        by_cases hsneg : s < 0
        · simp [read_binary_range_in_file, hfs, hps, hsneg]
        · simp [read_binary_range_in_file, hfs, hps, hsneg, hne, hstop]
  · cases hfs : fs filename with
    | none => simp [read_binary_range_in_file, hfs]
    | some contents =>
      have h1 : ¬s < 0 := by omega
      have h2 : ¬0 ≤ e - s := by omega
      have h3 : ¬e - s = -1 := by omega
      simp [read_binary_range_in_file, hfs, hs, he, hne, h1, h2, h3]

/-- Witness for C7: reading from a file system with no files returns
`none`. -/
theorem reader_fault_absence_witness :
    readerFault failFS "missing.airx" "0" "end_of_file"
    ∧ read_binary_range_in_file failFS "missing.airx" "0" "end_of_file" = none :=
  ⟨Or.inl rfl,
   reader_fault_absence failFS "missing.airx" "0" "end_of_file" (Or.inl rfl)⟩

/-! ## Claim C8 -/

/-- Claim C8: if the initial whole-file read of the extraction fails, the run
as a whole aborts with no section records emitted.  (In the Python, the
`None` returned by the failed read makes `find_offsets` crash on `None.find`
before the printing loop, so only the reader's diagnostic is produced.) -/
theorem read_failure_aborts (fs : String → Option (List Nat)) (filename : String)
    (h : read_binary_range_in_file fs filename "0" "end_of_file" = none) :
    extract_sections fs filename = none := by
  unfold extract_sections
  rw [h]

/-- Witness for C8: on a file system with no files the extraction emits no
section records. -/
theorem read_failure_aborts_witness :
    read_binary_range_in_file failFS "rules.airx" "0" "end_of_file" = none
    ∧ extract_sections failFS "rules.airx" = none :=
  ⟨rfl, read_failure_aborts failFS "rules.airx" rfl⟩
